import Mathlib

/-!
Shallow embedding of the Telegram channel auto-forwarder userbot
(`bot.py`): the SQLite-backed progress store (`ProgressDB`), the copy
loop of `safe_forward`, the position-recovery heuristic
`find_source_id_from_dest_message`, the admin command and callback
handlers, and the keep-alive log.  Message-platform I/O (entity
resolution, message retrieval, sending) appears as explicit data:
channel contents are lists of messages, send outcomes are `Except`
values, and poll results of the shared `is_running` flag are a function
of the poll index.
-/

namespace Userbot

/-- A channel message as the loop reads it: its id, its optional text
(`message.text` / `message.message` may be absent), whether it carries
media (`bool(message.media)`), and the media class name. -/
structure Msg where
  id : Nat
  text : Option String
  hasMedia : Bool
  mediaType : String
  deriving DecidableEq, Repr

/-- `m.message if m.message else ""`: a missing text reads as "". -/
def msgText (m : Msg) : String :=
  match m.text with
  | none => ""
  | some s => s

/-- Whether the first character list starts the second. -/
def listStarts : List Char → List Char → Bool
  | [], _ => true
  | _ :: _, [] => false
  | a :: as, b :: bs => a == b && listStarts as bs

/-- Python's `needle in hay` substring test, on character lists. -/
def listContains (needle : List Char) : List Char → Bool
  | [] => listStarts needle []
  | c :: rest => listStarts needle (c :: rest) || listContains needle rest

/-- `"flood" in str(e).lower()`: the single, case-insensitive substring
check classifying a send error. -/
def isFloodError (e : String) : Bool :=
  listContains "flood".toList (e.toList.map Char.toLower)

/-- The delay slept by the `except` branch of the copy loop: 60 s for a
flood-matching error, 5 s for every other error. -/
def errorDelay (e : String) : Nat :=
  if isFloodError e then 60 else 5

/-- A row of the `message_map` table (`PRIMARY KEY (source_msg_id)`). -/
structure MapRow where
  source_msg_id : Nat
  dest_msg_id : Nat
  forwarded_at : Nat
  deriving DecidableEq, Repr

/-- `ProgressDB.save_message_mapping`: an `INSERT OR REPLACE` keyed on
`source_msg_id`, so any existing row with that key is replaced. -/
def save_message_mapping (tbl : List MapRow) (source_id dest_id now : Nat) :
    List MapRow :=
  ⟨source_id, dest_id, now⟩ :: tbl.filter (fun r => r.source_msg_id != source_id)

/-- `ProgressDB.find_source_by_dest`: `SELECT source_msg_id FROM
message_map WHERE dest_msg_id = ?`, first matching row if any. -/
def find_source_by_dest (tbl : List MapRow) (dest_id : Nat) : Option Nat :=
  (tbl.find? (fun r => r.dest_msg_id == dest_id)).map (fun r => r.source_msg_id)

/-- The `keepalive_log` timestamps ordered most recent first
(`ORDER BY ping_time DESC`). -/
def sortDesc (l : List Nat) : List Nat :=
  l.insertionSort (· ≥ ·)

/-- `ProgressDB.log_keepalive`: insert the new ping, then delete every
row whose `ping_time` is not among the 100 most recent. -/
def log_keepalive (now : Nat) (tbl : List Nat) : List Nat :=
  (sortDesc (now :: tbl)).take 100

/-- `client.iter_messages(source, min_id=start_id, reverse=True)`: of a
channel listed oldest first, the messages with id above `min_id`, still
oldest first. -/
def iter_messages_min_rev (channel : List Msg) (min_id : Nat) : List Msg :=
  channel.filter (fun m => decide (min_id < m.id))

/-- The runtime configuration fields the copy loop reads. -/
structure LoopCfg where
  forward_delay : Nat
  batch_size : Nat
  batch_delay : Nat
  skip_media_types : List String
  deriving DecidableEq, Repr

/-- The counters `safe_forward` maintains: the shared
`config['last_forwarded_id']` and `config['forwarded_count']`, the
session counter `forwarded`, and `batch_count`. -/
structure LoopState where
  last_forwarded_id : Nat
  forwarded_count : Nat
  forwarded : Nat
  batch_count : Nat
  deriving DecidableEq, Repr

/-- The skip check: a media message whose lower-cased media class name
contains one of the configured substrings is skipped. -/
def shouldSkip (cfg : LoopCfg) (m : Msg) : Bool :=
  m.hasMedia && cfg.skip_media_types.any
    (fun s => listContains s.toList (m.mediaType.toList.map Char.toLower))

/-- The externally visible effect of one loop iteration. -/
inductive Step where
  | copied (srcId destId : Nat)
  | skipped (srcId : Nat)
  | errored (srcId delay : Nat)
  deriving DecidableEq, Repr

/-- The source message id an iteration handled. -/
def Step.src : Step → Nat
  | .copied s _ => s
  | .skipped s => s
  | .errored s _ => s

/-- Outcome of one run of the copy loop of `safe_forward`: the iteration
steps in order, the number of polls of `config['is_running']`, the final
counters, and the status written by the save at loop exit ("stopped" in
the stop branch, else the post-loop save's "completed"). -/
structure LoopRun where
  steps : List Step
  polls : Nat
  finalSt : LoopState
  exitStatus : String
  deriving DecidableEq, Repr

/-- The counter updates after a successful send of `m`: set the offset to
`m.id`, bump the counters, and reset `batch_count` when a batch pause is
taken (`batch_count >= config['batch_size']`). -/
def stepState (cfg : LoopCfg) (m : Msg) (st : LoopState) : LoopState :=
  ⟨m.id, st.forwarded_count + 1, st.forwarded + 1,
   if cfg.batch_size ≤ st.batch_count + 1 then 0 else st.batch_count + 1⟩

/-- The copy loop of `safe_forward`: each iteration polls
`config['is_running']` once (poll index `i`), exiting with a "stopped"
save when the flag reads false; otherwise it applies the skip check and
then the guarded send, whose outcome `send` gives.  A successful send
advances the counters; a failing send records the classified error delay
and continues.  The periodic progress saves and admin notifications are
I/O with no effect on control flow or on the claimed state, and are not
recorded. -/
def runLoop (flag : Nat → Bool) (send : Msg → Except String Nat)
    (cfg : LoopCfg) : List Msg → Nat → LoopState → LoopRun
  | [], _, st => ⟨[], 0, st, "completed"⟩
  | m :: ms, i, st =>
    if flag i then
      if shouldSkip cfg m then
        let r := runLoop flag send cfg ms (i + 1) st
        ⟨.skipped m.id :: r.steps, r.polls + 1, r.finalSt, r.exitStatus⟩
      else
        match send m with
        | .ok destId =>
          let r := runLoop flag send cfg ms (i + 1) (stepState cfg m st)
          ⟨.copied m.id destId :: r.steps, r.polls + 1, r.finalSt, r.exitStatus⟩
        | .error e =>
          let r := runLoop flag send cfg ms (i + 1) st
          ⟨.errored m.id (errorDelay e) :: r.steps, r.polls + 1, r.finalSt, r.exitStatus⟩
    else
      ⟨[], 1, st, "stopped"⟩

/-- The flat key-value config record (`bot_config.json`), restricted to
the keys the modelled handlers touch. -/
structure GlobalConfig where
  source_channel : Option Int
  destination_channel : Option Int
  forward_delay : Nat
  batch_size : Nat
  batch_delay : Nat
  is_running : Bool
  forwarded_count : Nat
  last_forwarded_id : Int
  auto_mode : Bool
  deriving DecidableEq, Repr

/-- The singleton row of the `progress` table. -/
structure ProgressRow where
  source_channel : Option Int
  dest_channel : Option Int
  last_forwarded_id : Int
  total_forwarded : Nat
  status : String
  deriving DecidableEq, Repr

/-- Persistent state: the JSON config file, the `progress` row, and the
`message_map` table. -/
structure Disk where
  file : Option GlobalConfig
  progress : Option ProgressRow
  map : List MapRow
  deriving DecidableEq, Repr

/-- Python truthiness of a stored channel id (`None` and `0` are falsy). -/
def truthy : Option Int → Bool
  | none => false
  | some v => v != 0

/-- `ProgressDB.save_progress`: `INSERT OR REPLACE` of the singleton
progress row. -/
def db_save_progress (d : Disk) (s dst : Option Int) (last : Int)
    (total : Nat) (status : String) : Disk :=
  { d with progress := some ⟨s, dst, last, total, status⟩ }

/-- `save_config`: write the JSON file, and also save progress to the
database when both channels are truthy (status "running" or "idle"). -/
def save_config (c : GlobalConfig) (d : Disk) : Disk :=
  let d' := { d with file := some c }
  if truthy c.source_channel && truthy c.destination_channel then
    db_save_progress d' c.source_channel c.destination_channel
      c.last_forwarded_id c.forwarded_count
      (if c.is_running then "running" else "idle")
  else d'

/-- In-memory config plus persistent stores. -/
structure BotState where
  config : GlobalConfig
  disk : Disk
  deriving DecidableEq, Repr

/-- A handler's chat output, by kind and a tag for its content. -/
inductive Reply where
  | respond (tag : String)
  | answer (tag : String)
  | edit (tag : String)
  deriving DecidableEq, Repr

/-- Result of running one handler: the new state, the replies sent, and
the number of forwarding tasks spawned via `asyncio.create_task`. -/
structure HandlerOut where
  st : BotState
  replies : List Reply
  tasksStarted : Nat
  deriving DecidableEq, Repr

/-- `find_source_id_from_dest_message`: first the database; on a miss,
compare the destination message's normalised text and media-presence bit
against the most recent source messages (`iter_messages(source,
limit=1000)`, `recent` newest first), saving a heuristic match back to
the mapping table.  `dest_msg` is the result of
`get_messages(dest_channel, ids=dest_msg_id)`. -/
def find_source_id_from_dest_message (tbl : List MapRow) (now : Nat)
    (dest_msg : Option Msg) (recent : List Msg) (dest_msg_id : Nat) :
    Option Nat × List MapRow :=
  match find_source_by_dest tbl dest_msg_id with
  | some sid => (some sid, tbl)
  | none =>
    match dest_msg with
    | none => (none, tbl)
    | some dm =>
      match (recent.take 1000).find?
          (fun m => msgText m == msgText dm && m.hasMedia == dm.hasMedia) with
      | some sm => (some sm.id, save_message_mapping tbl sm.id dest_msg_id now)
      | none => (none, tbl)

/-- `/forward`: refuse when the channels are unset or a run is already
active; otherwise set the running flag, save, and spawn the task. -/
def forward_command (st : BotState) : HandlerOut :=
  if !(truthy st.config.source_channel && truthy st.config.destination_channel) then
    ⟨st, [.respond "setup_required"], 0⟩
  else if st.config.is_running then
    ⟨st, [.respond "already_running"], 0⟩
  else
    let c' := { st.config with is_running := true }
    ⟨⟨c', save_config c' st.disk⟩, [.respond "starting"], 1⟩

/-- `/stopforward`: clear the running flag, save config, and save
progress with status "stopped". -/
def stopforward_command (st : BotState) : HandlerOut :=
  let c' := { st.config with is_running := false }
  let d1 := save_config c' st.disk
  let d2 := db_save_progress d1 c'.source_channel c'.destination_channel
    c'.last_forwarded_id c'.forwarded_count "stopped"
  ⟨⟨c', d2⟩, [.respond "stopped"], 0⟩

/-- `/setid n`: clamp a negative id to 0, store it, save config, and
save progress with status "manual_set". -/
def setid_command (st : BotState) (n : Int) : HandlerOut :=
  let msg_id := if n < 0 then 0 else n
  let c' := { st.config with last_forwarded_id := msg_id }
  let d1 := save_config c' st.disk
  let d2 := db_save_progress d1 c'.source_channel c'.destination_channel
    msg_id c'.forwarded_count "manual_set"
  ⟨⟨c', d2⟩, [.respond "position_updated"], 0⟩

/-- The `/speed` preset table. -/
def speedPreset (p : String) : Option (Nat × Nat × Nat) :=
  if p == "safe" then some (3, 50, 300)
  else if p == "balanced" then some (2, 100, 120)
  else if p == "fast" then some (1, 150, 90)
  else if p == "turbo" then some (1, 200, 60)
  else none

/-- `/speed`: apply a preset to the delay, batch size and batch delay. -/
def speed_command (st : BotState) (p : String) : HandlerOut :=
  match speedPreset p with
  | none => ⟨st, [.respond "invalid_preset"], 0⟩
  | some (delay, batch, rest) =>
    let c' := { st.config with
                  forward_delay := delay
                  batch_size := batch
                  batch_delay := rest }
    ⟨⟨c', save_config c' st.disk⟩, [.respond "preset_set"], 0⟩

/-- `/reset`: with the "confirm" word, zero the position and the counter
and save; otherwise only ask for confirmation. -/
def reset_command (st : BotState) (confirm : Bool) : HandlerOut :=
  if confirm then
    let c' := { st.config with last_forwarded_id := 0, forwarded_count := 0 }
    let d1 := save_config c' st.disk
    let d2 := db_save_progress d1 c'.source_channel c'.destination_channel
      0 0 "reset"
    ⟨⟨c', d2⟩, [.respond "reset_done"], 0⟩
  else ⟨st, [.respond "confirm_reset"], 0⟩

/-- `/source`: store the resolved channel id and save. -/
def source_command (st : BotState) (resolvedId : Int) : HandlerOut :=
  let c' := { st.config with source_channel := some resolvedId }
  ⟨⟨c', save_config c' st.disk⟩, [.respond "source_set"], 0⟩

/-- `/dest`: store the resolved channel id and save. -/
def dest_command (st : BotState) (resolvedId : Int) : HandlerOut :=
  let c' := { st.config with destination_channel := some resolvedId }
  ⟨⟨c', save_config c' st.disk⟩, [.respond "dest_set"], 0⟩

/-- `/findid` on a reply: require both channels, run the recovery
heuristic, and keep its (possibly extended) mapping table. -/
def findid_command (st : BotState) (dest_msg_id : Nat) (dest_msg : Option Msg)
    (recent : List Msg) (now : Nat) : HandlerOut :=
  if !(truthy st.config.source_channel && truthy st.config.destination_channel) then
    ⟨st, [.respond "set_channels_first"], 0⟩
  else
    let res := find_source_id_from_dest_message st.disk.map now dest_msg recent dest_msg_id
    let st' : BotState := ⟨st.config, { st.disk with map := res.2 }⟩
    match res.1 with
    | some _ => ⟨st', [.respond "match_found"], 0⟩
    | none => ⟨st', [.respond "no_match"], 0⟩

/-- The admin chat commands; network lookups (channel resolution, the
replied-to message, the recent source messages) appear as resolved
data carried by the command. -/
inductive Cmd where
  | start
  | statusCmd
  | progressCmd
  | laststatus
  | helpCmd
  | healthCmd
  | source (resolvedId : Int)
  | dest (resolvedId : Int)
  | forward
  | stopforward
  | setid (n : Int)
  | speed (p : String)
  | reset (confirm : Bool)
  | findid (dest_msg_id : Nat) (dest_msg : Option Msg) (recent : List Msg) (now : Nat)
  deriving DecidableEq, Repr

/-- Dispatch of the admin chat commands to their handlers; the read-only
commands only reply. -/
def handleCommand (st : BotState) : Cmd → HandlerOut
  | .start => ⟨st, [.respond "menu"], 0⟩
  | .statusCmd => ⟨st, [.respond "status"], 0⟩
  | .progressCmd => ⟨st, [.respond "progress"], 0⟩
  | .laststatus => ⟨st, [.respond "laststatus"], 0⟩
  | .helpCmd => ⟨st, [.respond "help"], 0⟩
  | .healthCmd => ⟨st, [.respond "health"], 0⟩
  | .source rid => source_command st rid
  | .dest rid => dest_command st rid
  | .forward => forward_command st
  | .stopforward => stopforward_command st
  | .setid n => setid_command st n
  | .speed p => speed_command st p
  | .reset c => reset_command st c
  | .findid dmid dm recent now => findid_command st dmid dm recent now

/-- The body of `callback_handler` after its admin check, keyed on the
button payload; payloads with no branch fall through with no effect. -/
def handleCallback (st : BotState) (data : String) : HandlerOut :=
  if data == "refresh" then ⟨st, [.edit "status"], 0⟩
  else if data == "status" then ⟨st, [.answer "status"], 0⟩
  else if data == "start" then
    if !(truthy st.config.source_channel && truthy st.config.destination_channel) then
      ⟨st, [.answer "set_channels_first"], 0⟩
    else
      let c' := { st.config with is_running := true }
      ⟨⟨c', save_config c' st.disk⟩, [.edit "starting"], 1⟩
  else if data == "stop" then
    let c' := { st.config with is_running := false }
    ⟨⟨c', save_config c' st.disk⟩, [.edit "stopped"], 0⟩
  else if data == "stats" then ⟨st, [.answer "stats"], 0⟩
  else ⟨st, [], 0⟩

/-- An incoming update: a command message or a button callback, with its
sender id. -/
inductive BotEvent where
  | command (sender : Int) (cmd : Cmd)
  | callback (sender : Int) (data : String)
  deriving DecidableEq, Repr

/-- The sender id of an event. -/
def BotEvent.sender : BotEvent → Int
  | .command s _ => s
  | .callback s _ => s

/-- Event dispatch: every command handler is registered with
`from_users=ADMIN_ID`, so a non-admin command never reaches a handler;
`callback_handler` answers "Unauthorized" to any non-admin sender before
touching any state. -/
def processEvent (admin : Int) (st : BotState) : BotEvent → HandlerOut
  | .command s cmd =>
    if s == admin then handleCommand st cmd else ⟨st, [], 0⟩
  | .callback s data =>
    if s != admin then ⟨st, [.answer "Unauthorized"], 0⟩
    else handleCallback st data

/-- Folding a stream of updates through the dispatcher, tracking the
state it leaves behind. -/
def runEvents (admin : Int) (st : BotState) (evs : List BotEvent) : BotState :=
  evs.foldl (fun s e => (processEvent admin s e).st) st

/-- The `finally` clause of `start_forwarding_task`: clear `is_running`
and call `save_config`. -/
def taskFinally (c : GlobalConfig) (d : Disk) : GlobalConfig × Disk :=
  let c' := { c with is_running := false }
  (c', save_config c' d)

/-- `start_forwarding_task`'s `try/except/finally`: `c` and `d` are the
config and disk state the try block (the `safe_forward` call and the
completion or error notification) left behind, and `body` says whether
it returned or raised; either way the `finally` clause runs. -/
def start_forwarding_task (body : Except String Unit) (c : GlobalConfig)
    (d : Disk) : GlobalConfig × Disk :=
  match body with
  | .ok _ => taskFinally c d
  | .error _ => taskFinally c d

/-! ## Equation lemmas for the copy loop -/

theorem runLoop_nil (flag : Nat → Bool) (send : Msg → Except String Nat)
    (cfg : LoopCfg) (i : Nat) (st : LoopState) :
    runLoop flag send cfg [] i st = ⟨[], 0, st, "completed"⟩ := rfl

theorem runLoop_cons_stop (flag : Nat → Bool) (send : Msg → Except String Nat)
    (cfg : LoopCfg) (m : Msg) (ms : List Msg) (i : Nat) (st : LoopState)
    (h : flag i = false) :
    runLoop flag send cfg (m :: ms) i st = ⟨[], 1, st, "stopped"⟩ := by
  simp [runLoop, h]

theorem runLoop_cons_skip (flag : Nat → Bool) (send : Msg → Except String Nat)
    (cfg : LoopCfg) (m : Msg) (ms : List Msg) (i : Nat) (st : LoopState)
    (h : flag i = true) (hsk : shouldSkip cfg m = true) :
    runLoop flag send cfg (m :: ms) i st =
      ⟨Step.skipped m.id :: (runLoop flag send cfg ms (i + 1) st).steps,
       (runLoop flag send cfg ms (i + 1) st).polls + 1,
       (runLoop flag send cfg ms (i + 1) st).finalSt,
       (runLoop flag send cfg ms (i + 1) st).exitStatus⟩ := by
  simp [runLoop, h, hsk]

theorem runLoop_cons_ok (flag : Nat → Bool) (send : Msg → Except String Nat)
    (cfg : LoopCfg) (m : Msg) (ms : List Msg) (i : Nat) (st : LoopState)
    (destId : Nat) (h : flag i = true) (hsk : shouldSkip cfg m = false)
    (hsend : send m = Except.ok destId) :
    runLoop flag send cfg (m :: ms) i st =
      ⟨Step.copied m.id destId ::
         (runLoop flag send cfg ms (i + 1) (stepState cfg m st)).steps,
       (runLoop flag send cfg ms (i + 1) (stepState cfg m st)).polls + 1,
       (runLoop flag send cfg ms (i + 1) (stepState cfg m st)).finalSt,
       (runLoop flag send cfg ms (i + 1) (stepState cfg m st)).exitStatus⟩ := by
  simp [runLoop, h, hsk, hsend]

theorem runLoop_cons_err (flag : Nat → Bool) (send : Msg → Except String Nat)
    (cfg : LoopCfg) (m : Msg) (ms : List Msg) (i : Nat) (st : LoopState)
    (e : String) (h : flag i = true) (hsk : shouldSkip cfg m = false)
    (hsend : send m = Except.error e) :
    runLoop flag send cfg (m :: ms) i st =
      ⟨Step.errored m.id (errorDelay e) :: (runLoop flag send cfg ms (i + 1) st).steps,
       (runLoop flag send cfg ms (i + 1) st).polls + 1,
       (runLoop flag send cfg ms (i + 1) st).finalSt,
       (runLoop flag send cfg ms (i + 1) st).exitStatus⟩ := by
  simp [runLoop, h, hsk, hsend]

/-- Every iteration step concerns a message of the iterated list. -/
theorem runLoop_src_mem (flag : Nat → Bool) (send : Msg → Except String Nat)
    (cfg : LoopCfg) : ∀ (msgs : List Msg) (i : Nat) (st : LoopState),
    ∀ s ∈ (runLoop flag send cfg msgs i st).steps, Step.src s ∈ msgs.map Msg.id := by
  intro msgs
  induction msgs with
  | nil =>
    intro i st s hs
    simp [runLoop_nil] at hs
  | cons m ms ih =>
    intro i st s hs
    by_cases hf : flag i
    · by_cases hsk : shouldSkip cfg m
      · rw [runLoop_cons_skip flag send cfg m ms i st hf hsk] at hs
        rcases List.mem_cons.mp hs with rfl | hs'
        · simp [Step.src]
        · exact List.mem_cons_of_mem _ (ih (i + 1) st s hs')
      · rcases hsend : send m with e | destId
        · rw [runLoop_cons_err flag send cfg m ms i st e hf
            (Bool.not_eq_true _ ▸ hsk) hsend] at hs
          rcases List.mem_cons.mp hs with rfl | hs'
          · simp [Step.src]
          · exact List.mem_cons_of_mem _ (ih (i + 1) st s hs')
        · rw [runLoop_cons_ok flag send cfg m ms i st destId hf
            (Bool.not_eq_true _ ▸ hsk) hsend] at hs
          rcases List.mem_cons.mp hs with rfl | hs'
          · simp [Step.src]
          · exact List.mem_cons_of_mem _ (ih (i + 1) (stepState cfg m st) s hs')
    · rw [runLoop_cons_stop flag send cfg m ms i st (Bool.not_eq_true _ ▸ hf)] at hs
      simp at hs

/-- With the running flag always true, the loop processes every message
of the iterated list in order (one step per message, one poll per step),
exits with the "completed" status, and turns each failing, unskipped
send into an `errored` step carrying the classified delay. -/
theorem runLoop_all (flag : Nat → Bool) (send : Msg → Except String Nat)
    (cfg : LoopCfg) (hflag : ∀ j, flag j = true) :
    ∀ (msgs : List Msg) (i : Nat) (st : LoopState),
    ((runLoop flag send cfg msgs i st).steps.map Step.src = msgs.map Msg.id) ∧
    ((runLoop flag send cfg msgs i st).exitStatus = "completed") ∧
    ((runLoop flag send cfg msgs i st).polls = msgs.length) ∧
    (∀ (j : Nat) (m : Msg) (e : String), msgs[j]? = some m →
      shouldSkip cfg m = false → send m = Except.error e →
      (runLoop flag send cfg msgs i st).steps[j]? =
        some (Step.errored m.id (errorDelay e))) := by
  intro msgs
  induction msgs with
  | nil =>
    intro i st
    refine ⟨by simp [runLoop_nil], by simp [runLoop_nil], by simp [runLoop_nil], ?_⟩
    intro j m e hm
    simp at hm
  | cons m ms ih =>
    intro i st
    by_cases hsk : shouldSkip cfg m
    · rw [runLoop_cons_skip flag send cfg m ms i st (hflag i) hsk]
      obtain ⟨ih1, ih2, ih3, ih4⟩ := ih (i + 1) st
      refine ⟨by simp [ih1, Step.src], by simpa using ih2, by simp [ih3], ?_⟩
      intro j m' e hm' hsk' hsend'
      cases j with
      | zero =>
        simp at hm'
        subst hm'
        rw [hsk'] at hsk
        simp at hsk
      | succ j' =>
        simp only [List.getElem?_cons_succ] at hm' ⊢
        exact ih4 j' m' e hm' hsk' hsend'
    · have hsk' : shouldSkip cfg m = false := Bool.not_eq_true _ ▸ hsk
      rcases hsend : send m with e | destId
      · rw [runLoop_cons_err flag send cfg m ms i st e (hflag i) hsk' hsend]
        obtain ⟨ih1, ih2, ih3, ih4⟩ := ih (i + 1) st
        refine ⟨by simp [ih1, Step.src], by simpa using ih2, by simp [ih3], ?_⟩
        intro j m' e' hm' hsk2 hsend2
        cases j with
        | zero =>
          simp at hm'
          subst hm'
          rw [hsend] at hsend2
          simp only [List.getElem?_cons_zero]
          injection hsend2 with he
          rw [he]
        | succ j' =>
          simp only [List.getElem?_cons_succ] at hm' ⊢
          exact ih4 j' m' e' hm' hsk2 hsend2
      · rw [runLoop_cons_ok flag send cfg m ms i st destId (hflag i) hsk' hsend]
        obtain ⟨ih1, ih2, ih3, ih4⟩ := ih (i + 1) (stepState cfg m st)
        refine ⟨by simp [ih1, Step.src], by simpa using ih2, by simp [ih3], ?_⟩
        intro j m' e' hm' hsk2 hsend2
        cases j with
        | zero =>
          simp at hm'
          subst hm'
          rw [hsend] at hsend2
          cases hsend2
        | succ j' =>
          simp only [List.getElem?_cons_succ] at hm' ⊢
          exact ih4 j' m' e' hm' hsk2 hsend2

/-- With the flag reading true exactly at poll indices below `t`, the
loop fully processes the first `t - i` messages, polls once per
iteration plus the final observing poll, and exits with the "stopped"
save. -/
theorem runLoop_stopsAt (send : Msg → Except String Nat) (cfg : LoopCfg)
    (t : Nat) : ∀ (msgs : List Msg) (i : Nat) (st : LoopState),
    i ≤ t → t - i < msgs.length →
    ((runLoop (fun j => decide (j < t)) send cfg msgs i st).exitStatus = "stopped") ∧
    ((runLoop (fun j => decide (j < t)) send cfg msgs i st).polls = (t - i) + 1) ∧
    ((runLoop (fun j => decide (j < t)) send cfg msgs i st).steps.map Step.src =
      (msgs.take (t - i)).map Msg.id) := by
  intro msgs
  induction msgs with
  | nil =>
    intro i st _ hlen
    simp at hlen
  | cons m ms ih =>
    intro i st hit hlen
    by_cases hi : i = t
    · subst hi
      rw [runLoop_cons_stop _ send cfg m ms i st (by simp)]
      simp
    · have hilt : i < t := lt_of_le_of_ne hit hi
      have hf : (fun j => decide (j < t)) i = true := by simp [hilt]
      have hit' : i + 1 ≤ t := hilt
      have htake : t - i = (t - (i + 1)) + 1 := by omega
      have hlen' : t - (i + 1) < ms.length := by
        simp only [List.length_cons] at hlen
        omega
      by_cases hsk : shouldSkip cfg m
      · rw [runLoop_cons_skip _ send cfg m ms i st hf hsk]
        obtain ⟨ih1, ih2, ih3⟩ := ih (i + 1) st hit' hlen'
        refine ⟨by simpa using ih1, by simp [ih2]; omega, ?_⟩
        rw [htake, List.take_succ_cons]
        simp [ih3, Step.src]
      · have hsk' : shouldSkip cfg m = false := Bool.not_eq_true _ ▸ hsk
        rcases hsend : send m with e | destId
        · rw [runLoop_cons_err _ send cfg m ms i st e hf hsk' hsend]
          obtain ⟨ih1, ih2, ih3⟩ := ih (i + 1) st hit' hlen'
          refine ⟨by simpa using ih1, by simp [ih2]; omega, ?_⟩
          rw [htake, List.take_succ_cons]
          simp [ih3, Step.src]
        · rw [runLoop_cons_ok _ send cfg m ms i st destId hf hsk' hsend]
          obtain ⟨ih1, ih2, ih3⟩ := ih (i + 1) (stepState cfg m st) hit' hlen'
          refine ⟨by simpa using ih1, by simp [ih2]; omega, ?_⟩
          rw [htake, List.take_succ_cons]
          simp [ih3, Step.src]

/-! ## Claim theorems -/

/-- C1: the copy loop resumes strictly after the saved forward offset:
a run started with start id `k` iterates exactly the source messages
with id greater than `k`, in ascending id order, the first candidate is
the message with id `k + 1` when it exists, and every step of the loop
(in particular every copy) concerns a message with id above `k`, so no
message with id at most `k` is re-copied. -/
theorem spec_C1_resume_strictly_after_offset (channel : List Msg) (k : Nat)
    (hsorted : channel.Pairwise (fun a b => a.id < b.id)) :
    (∀ m ∈ iter_messages_min_rev channel k, k < m.id) ∧
    ((iter_messages_min_rev channel k).Pairwise (fun a b => a.id < b.id)) ∧
    (∀ m ∈ channel, m.id = k + 1 → (iter_messages_min_rev channel k).head? = some m) ∧
    (∀ (flag : Nat → Bool) (send : Msg → Except String Nat) (cfg : LoopCfg)
      (st : LoopState),
      ∀ s ∈ (runLoop flag send cfg (iter_messages_min_rev channel k) 0 st).steps,
        k < Step.src s) := by
  have hmem : ∀ m ∈ iter_messages_min_rev channel k, k < m.id := by
    intro m hm
    simp only [iter_messages_min_rev, List.mem_filter, decide_eq_true_eq] at hm
    exact hm.2
  have hpair : (iter_messages_min_rev channel k).Pairwise (fun a b => a.id < b.id) :=
    List.Pairwise.sublist (List.filter_sublist _) hsorted
  have hhead : ∀ m ∈ channel, m.id = k + 1 →
      (iter_messages_min_rev channel k).head? = some m := by
    intro m hm hid
    have hmf : m ∈ iter_messages_min_rev channel k := by
      simp only [iter_messages_min_rev, List.mem_filter, decide_eq_true_eq]
      exact ⟨hm, by omega⟩
    cases hit : iter_messages_min_rev channel k with
    | nil =>
      rw [hit] at hmf
      simp at hmf
    | cons x rest =>
      rw [hit] at hmf
      rcases List.mem_cons.mp hmf with h | hmr
      · simp [h]
      · have hx : x ∈ iter_messages_min_rev channel k := by
          rw [hit]
          exact List.mem_cons_self x rest
        have hxk : k < x.id := hmem x hx
        have hp2 := hpair
        rw [hit] at hp2
        have hxm : x.id < m.id := (List.pairwise_cons.mp hp2).1 m hmr
        exfalso
        omega
  refine ⟨hmem, hpair, hhead, ?_⟩
  intro flag send cfg st s hs
  have hsm := runLoop_src_mem flag send cfg (iter_messages_min_rev channel k) 0 st s hs
  simp only [List.mem_map] at hsm
  obtain ⟨m, hm, hco⟩ := hsm
  rw [← hco]
  exact hmem m hm

/-- Witness for C1: in a channel with ids 1, 2, 3 and saved offset 1,
the first iterated candidate is the message with id 2. -/
theorem spec_C1_witness :
    (iter_messages_min_rev
      [⟨1, some "a", false, ""⟩, ⟨2, none, true, "photo"⟩, ⟨3, some "b", false, ""⟩] 1).head? =
      some ⟨2, none, true, "photo"⟩ :=
  (spec_C1_resume_strictly_after_offset
    [⟨1, some "a", false, ""⟩, ⟨2, none, true, "photo"⟩, ⟨3, some "b", false, ""⟩] 1
    (by decide)).2.2.1 ⟨2, none, true, "photo"⟩ (by decide) rfl

/-- C2: cancellation is cooperative and never preemptive: with the
shared flag reading true at the polls before index `t` and false from
poll `t` on (the flag is polled exactly once per iteration, before each
copy), every iteration that saw a true poll — including the one in
flight when the flag is cleared — runs to completion, exactly the first
`t` messages are processed (so at most one further full iteration runs
after the clearing), the loop makes `t + 1` polls (one per iteration
plus the final observing poll), and it exits with the "stopped"
progress save. -/
theorem spec_C2_cooperative_stop (send : Msg → Except String Nat) (cfg : LoopCfg)
    (st : LoopState) (msgs : List Msg) (t : Nat) (ht : t < msgs.length) :
    ((runLoop (fun j => decide (j < t)) send cfg msgs 0 st).exitStatus = "stopped") ∧
    ((runLoop (fun j => decide (j < t)) send cfg msgs 0 st).polls = t + 1) ∧
    ((runLoop (fun j => decide (j < t)) send cfg msgs 0 st).steps.map Step.src =
      (msgs.take t).map Msg.id) ∧
    ((runLoop (fun j => decide (j < t)) send cfg msgs 0 st).steps.length = t) := by
  obtain ⟨h1, h2, h3⟩ :=
    runLoop_stopsAt send cfg t msgs 0 st (Nat.zero_le t) (by simpa using ht)
  simp only [Nat.sub_zero] at h1 h2 h3
  refine ⟨h1, h2, h3, ?_⟩
  have hlen := congrArg List.length h3
  simpa [List.length_take, Nat.min_eq_left (le_of_lt ht)] using hlen

/-- Witness for C2: stopping after one iteration over a three-message
channel exits with the "stopped" save. -/
theorem spec_C2_witness :
    (runLoop (fun j => decide (j < 1)) (fun m => Except.ok (m.id + 100)) ⟨2, 100, 120, []⟩
      [⟨1, none, false, ""⟩, ⟨2, none, false, ""⟩, ⟨3, none, false, ""⟩] 0
      ⟨0, 0, 0, 0⟩).exitStatus = "stopped" :=
  (spec_C2_cooperative_stop (fun m => Except.ok (m.id + 100)) ⟨2, 100, 120, []⟩ ⟨0, 0, 0, 0⟩
    [⟨1, none, false, ""⟩, ⟨2, none, false, ""⟩, ⟨3, none, false, ""⟩] 1 (by decide)).1

/-- C4: every failure of a single message send is caught and the loop
continues with the next message (every message still yields exactly one
step and the loop ends with the "completed" status): a failing,
unskipped send at position `j` yields the `errored` step with the
classified delay, where classification is exactly the one
case-insensitive substring check for "flood" — a flood-matching error
delays 60 s and every other error delays 5 s. -/
theorem spec_C4_send_error_handling (send : Msg → Except String Nat) (cfg : LoopCfg)
    (st : LoopState) (msgs : List Msg) :
    ((runLoop (fun _ => true) send cfg msgs 0 st).steps.map Step.src = msgs.map Msg.id) ∧
    ((runLoop (fun _ => true) send cfg msgs 0 st).exitStatus = "completed") ∧
    (∀ (j : Nat) (m : Msg) (e : String), msgs[j]? = some m →
      shouldSkip cfg m = false → send m = Except.error e →
      (runLoop (fun _ => true) send cfg msgs 0 st).steps[j]? =
        some (Step.errored m.id (errorDelay e))) ∧
    (∀ e, isFloodError e = true → errorDelay e = 60) ∧
    (∀ e, isFloodError e = false → errorDelay e = 5) := by
  obtain ⟨h1, h2, _, h4⟩ := runLoop_all (fun _ => true) send cfg (fun _ => rfl) msgs 0 st
  exact ⟨h1, h2, h4, fun e he => by simp [errorDelay, he],
    fun e he => by simp [errorDelay, he]⟩

/-- Witness for C4: a send failing with a flood-matching error text
yields an `errored` step with the 60-second delay. -/
theorem spec_C4_witness :
    (runLoop (fun _ => true) (fun _ => Except.error "FloodWaitError of 420s")
      ⟨2, 100, 120, []⟩ [⟨1, none, false, ""⟩] 0 ⟨0, 0, 0, 0⟩).steps[0]? =
      some (Step.errored 1 60) := by
  have h := (spec_C4_send_error_handling (fun _ => Except.error "FloodWaitError of 420s")
    ⟨2, 100, 120, []⟩ ⟨0, 0, 0, 0⟩ [⟨1, none, false, ""⟩]).2.2.1 0 ⟨1, none, false, ""⟩
    "FloodWaitError of 420s" (by decide) (by decide) rfl
  have h60 : errorDelay "FloodWaitError of 420s" = 60 := by decide
  rw [h60] at h
  exact h

/-- C3: on a database miss, the position-recovery heuristic scans at
most the 1000 most recent source messages and returns an id only if it
is the id of a scanned message whose (normalised) text equals the
destination message's text and whose media-presence bit equals the
destination's; when no scanned message matches, it returns no result. -/
theorem spec_C3_recovery_heuristic (tbl : List MapRow) (now : Nat) (dm : Msg)
    (recent : List Msg) (dest_msg_id : Nat)
    (hdb : find_source_by_dest tbl dest_msg_id = none) :
    (∀ i, (find_source_id_from_dest_message tbl now (some dm) recent dest_msg_id).1 =
        some i →
      ∃ m ∈ recent.take 1000,
        m.id = i ∧ msgText m = msgText dm ∧ m.hasMedia = dm.hasMedia) ∧
    ((∀ m ∈ recent.take 1000, ¬(msgText m = msgText dm ∧ m.hasMedia = dm.hasMedia)) →
      (find_source_id_from_dest_message tbl now (some dm) recent dest_msg_id).1 = none) := by
  simp only [find_source_id_from_dest_message, hdb]
  cases hfind : (recent.take 1000).find?
      (fun m => msgText m == msgText dm && m.hasMedia == dm.hasMedia) with
  | none =>
    refine ⟨?_, fun _ => rfl⟩
    intro i hi
    simp at hi
  | some sm =>
    have hmem := List.mem_of_find?_eq_some hfind
    have hpred := List.find?_some hfind
    simp only [Bool.and_eq_true, beq_iff_eq] at hpred
    constructor
    · intro i hi
      simp only at hi
      injection hi with hi
      exact ⟨sm, hmem, hi, hpred.1, hpred.2⟩
    · intro hall
      exact absurd ⟨hpred.1, hpred.2⟩ (hall sm hmem)

/-- Witness for C3: with an empty mapping table, a text-and-media match
among the recent source messages is found and reported. -/
theorem spec_C3_witness :
    ∃ m ∈ ([⟨9, some "x", false, ""⟩] : List Msg).take 1000,
      m.id = 9 ∧ msgText m = msgText ⟨5, some "x", false, ""⟩ ∧
      m.hasMedia = Msg.hasMedia ⟨5, some "x", false, ""⟩ :=
  (spec_C3_recovery_heuristic [] 0 ⟨5, some "x", false, ""⟩ [⟨9, some "x", false, ""⟩] 7
    (by decide)).1 9 (by decide)

/-- C5: however the forwarding task's body ends — a normal return or a
failure escaping the copy loop — the `finally` clause leaves the running
flag cleared and persists the current offset and counters: the config
file always, and the database progress row whenever both channels are
set. -/
theorem spec_C5_task_cleanup (body : Except String Unit) (c : GlobalConfig) (d : Disk) :
    ((start_forwarding_task body c d).1.is_running = false) ∧
    ((start_forwarding_task body c d).1.last_forwarded_id = c.last_forwarded_id) ∧
    ((start_forwarding_task body c d).1.forwarded_count = c.forwarded_count) ∧
    ((start_forwarding_task body c d).2.file = some (start_forwarding_task body c d).1) ∧
    ((truthy c.source_channel && truthy c.destination_channel) = true →
      (start_forwarding_task body c d).2.progress =
        some ⟨c.source_channel, c.destination_channel, c.last_forwarded_id,
              c.forwarded_count, "idle"⟩) := by
  cases body with
  | ok u =>
    refine ⟨rfl, rfl, rfl, ?_, ?_⟩
    · simp only [start_forwarding_task, taskFinally, save_config, db_save_progress]
      split <;> rfl
    · intro h
      simp [start_forwarding_task, taskFinally, save_config, db_save_progress, h]
  | error e =>
    refine ⟨rfl, rfl, rfl, ?_, ?_⟩
    · simp only [start_forwarding_task, taskFinally, save_config, db_save_progress]
      split <;> rfl
    · intro h
      simp [start_forwarding_task, taskFinally, save_config, db_save_progress, h]

/-- Witness for C5: a task whose body raised still ends with the flag
cleared and the progress row persisted. -/
theorem spec_C5_witness :
    ((start_forwarding_task (Except.error "boom")
      ⟨some 1, some (-2), 2, 100, 120, true, 7, 42, false⟩
      ⟨none, none, []⟩).1.is_running = false) ∧
    ((start_forwarding_task (Except.error "boom")
      ⟨some 1, some (-2), 2, 100, 120, true, 7, 42, false⟩
      ⟨none, none, []⟩).2.progress = some ⟨some 1, some (-2), 42, 7, "idle"⟩) :=
  ⟨(spec_C5_task_cleanup (Except.error "boom")
      ⟨some 1, some (-2), 2, 100, 120, true, 7, 42, false⟩ ⟨none, none, []⟩).1,
   (spec_C5_task_cleanup (Except.error "boom")
      ⟨some 1, some (-2), 2, 100, 120, true, 7, 42, false⟩ ⟨none, none, []⟩).2.2.2.2
      (by decide)⟩

/-- C6 counterexample: the mapping store is not append-only — saving a
second mapping for the same source id replaces the earlier row, so the
row `(1, 10, 0)` exists and is then removed by a later operation. -/
theorem spec_C6_append_only_cex :
    (MapRow.mk 1 10 0 ∈ save_message_mapping [] 1 10 0) ∧
    (MapRow.mk 1 10 0 ∉ save_message_mapping (save_message_mapping [] 1 10 0) 1 20 1) := by
  decide

/-- C6 amended: the mapping store is an upsert keyed by source message
id: each copy records exactly one row for its source id (replacing any
previous row for that same id); rows for every other source id are
never modified or removed; a key once present never disappears and no
expiry exists, so the store grows unboundedly in distinct source ids
(saving a fresh id always lengthens the table). -/
theorem spec_C6_mapping_upsert (tbl : List MapRow) (s d t : Nat) :
    (MapRow.mk s d t ∈ save_message_mapping tbl s d t) ∧
    ((save_message_mapping tbl s d t).filter (fun r => r.source_msg_id == s) =
      [⟨s, d, t⟩]) ∧
    (∀ r ∈ tbl, r.source_msg_id ≠ s → r ∈ save_message_mapping tbl s d t) ∧
    (∀ r ∈ save_message_mapping tbl s d t, r.source_msg_id ≠ s → r ∈ tbl) ∧
    (∀ k, (∃ r ∈ tbl, r.source_msg_id = k) →
      ∃ r ∈ save_message_mapping tbl s d t, r.source_msg_id = k) ∧
    ((∀ r ∈ tbl, r.source_msg_id ≠ s) →
      (save_message_mapping tbl s d t).length = tbl.length + 1) := by
  refine ⟨List.mem_cons_self _ _, ?_, ?_, ?_, ?_, ?_⟩
  · simp only [save_message_mapping, List.filter_cons, beq_self_eq_true, if_pos,
      List.filter_filter]
    have : ∀ r : MapRow, ((r.source_msg_id == s) && (r.source_msg_id != s)) = false := by
      intro r
      cases h : r.source_msg_id == s <;> simp [bne, h]
    simp [List.filter_eq_nil_iff, this]
  · intro r hr hne
    simp only [save_message_mapping, List.mem_cons, List.mem_filter]
    right
    exact ⟨hr, by simpa [bne] using hne⟩
  · intro r hr hne
    simp only [save_message_mapping, List.mem_cons, List.mem_filter] at hr
    rcases hr with rfl | ⟨hr, _⟩
    · simp at hne
    · exact hr
  · intro k ⟨r, hr, hk⟩
    by_cases hks : k = s
    · exact ⟨⟨s, d, t⟩, List.mem_cons_self _ _, hks.symm⟩
    · refine ⟨r, ?_, hk⟩
      simp only [save_message_mapping, List.mem_cons, List.mem_filter]
      right
      refine ⟨hr, ?_⟩
      simp [bne, hk, hks]
  · intro hall
    simp only [save_message_mapping, List.length_cons]
    rw [List.filter_eq_self.mpr]
    intro r hr
    simpa [bne] using hall r hr

/-- Witness for C6 amended: saving a fresh source id keeps the existing
row for another id and lengthens the table by one. -/
theorem spec_C6_witness :
    (MapRow.mk 1 10 0 ∈ save_message_mapping [MapRow.mk 1 10 0] 3 4 5) ∧
    ((save_message_mapping [MapRow.mk 1 10 0] 3 4 5).length = 2) :=
  ⟨(spec_C6_mapping_upsert [MapRow.mk 1 10 0] 3 4 5).2.2.1 ⟨1, 10, 0⟩ (by decide)
      (by decide),
   (spec_C6_mapping_upsert [MapRow.mk 1 10 0] 3 4 5).2.2.2.2.2
      (by decide)⟩

/-- A non-admin event leaves the bot state untouched. -/
theorem processEvent_nonadmin (admin : Int) (st : BotState) (e : BotEvent)
    (h : e.sender ≠ admin) : (processEvent admin st e).st = st := by
  cases e with
  | command s cmd =>
    simp only [BotEvent.sender] at h
    have hb : (s == admin) = false := by simp [h]
    simp [processEvent, hb]
  | callback s dat =>
    simp only [BotEvent.sender] at h
    have hb : (s != admin) = true := by simp [bne_iff_ne, h]
    simp [processEvent, hb]

/-- C7: every chat-command handler and every button callback is
restricted to the admin identity: a non-admin command reaches no handler
(state unchanged, no reply, no task), a non-admin callback only gets the
"Unauthorized" answer, and — as a two-run statement — a run of any
update stream ends in the same state as the run of its admin-only
subsequence, so non-admin traffic never changes configuration or
progress state. -/
theorem spec_C7_admin_only (admin : Int) :
    (∀ (st : BotState) (s : Int) (cmd : Cmd), s ≠ admin →
      processEvent admin st (BotEvent.command s cmd) = ⟨st, [], 0⟩) ∧
    (∀ (st : BotState) (s : Int) (dat : String), s ≠ admin →
      processEvent admin st (BotEvent.callback s dat) =
        ⟨st, [Reply.answer "Unauthorized"], 0⟩) ∧
    (∀ (st : BotState) (evs : List BotEvent),
      runEvents admin st evs =
        runEvents admin st (evs.filter (fun e => e.sender == admin))) := by
  refine ⟨?_, ?_, ?_⟩
  · intro st s cmd h
    have hb : (s == admin) = false := by simp [h]
    simp [processEvent, hb]
  · intro st s dat h
    have hb : (s != admin) = true := by simp [bne_iff_ne, h]
    simp [processEvent, hb]
  · intro st evs
    induction evs generalizing st with
    | nil => rfl
    | cons e evs ih =>
      by_cases h : e.sender = admin
      · have hb : (e.sender == admin) = true := by simp [h]
        simp only [runEvents, List.foldl_cons, List.filter_cons, hb, if_true]
        simpa [runEvents] using ih ((processEvent admin st e).st)
      · have hb : (e.sender == admin) = false := by simp [h]
        simp only [runEvents, List.foldl_cons, List.filter_cons, hb, Bool.false_eq_true,
          if_false]
        rw [processEvent_nonadmin admin st e h]
        simpa [runEvents] using ih st

/-- Witness for C7: with admin id 10, sender 3 gets no command handler
run and only the "Unauthorized" answer on a callback. -/
theorem spec_C7_witness :
    (processEvent 10 ⟨⟨some 1, some 2, 2, 100, 120, false, 0, 0, false⟩, ⟨none, none, []⟩⟩
      (BotEvent.command 3 Cmd.forward) =
      ⟨⟨⟨some 1, some 2, 2, 100, 120, false, 0, 0, false⟩, ⟨none, none, []⟩⟩, [], 0⟩) ∧
    (processEvent 10 ⟨⟨some 1, some 2, 2, 100, 120, false, 0, 0, false⟩, ⟨none, none, []⟩⟩
      (BotEvent.callback 3 "start") =
      ⟨⟨⟨some 1, some 2, 2, 100, 120, false, 0, 0, false⟩, ⟨none, none, []⟩⟩,
       [Reply.answer "Unauthorized"], 0⟩) :=
  ⟨(spec_C7_admin_only 10).1 _ 3 Cmd.forward (by decide),
   (spec_C7_admin_only 10).2.1 _ 3 "start" (by decide)⟩

/-- C8: the manual position override only clamps: for every integer `n`
supplied to `/setid`, the stored last-forwarded id becomes `max n 0`
(negative inputs clamp to 0, any non-negative input is kept unchanged),
and the same clamped value is persisted to the progress record. -/
theorem spec_C8_setid_clamp (st : BotState) (n : Int) :
    ((setid_command st n).st.config.last_forwarded_id = max n 0) ∧
    ((setid_command st n).st.disk.progress =
      some ⟨st.config.source_channel, st.config.destination_channel, max n 0,
            st.config.forwarded_count, "manual_set"⟩) := by
  have hmax : (if n < 0 then 0 else n) = max n 0 := by
    rcases le_or_lt 0 n with h | h
    · rw [if_neg (not_lt.mpr h), max_eq_left h]
    · rw [if_pos h, max_eq_right h.le]
  constructor
  · simp [setid_command, hmax]
  · simp [setid_command, db_save_progress, hmax]

/-- C9: `/forward` enforces a single worker at its entry point: with the
channels configured and the running flag already true, the handler only
replies that forwarding is already running — the state is unchanged and
no second forwarding task is created. -/
theorem spec_C9_forward_single_start (st : BotState)
    (hsrc : truthy st.config.source_channel = true)
    (hdst : truthy st.config.destination_channel = true)
    (hrun : st.config.is_running = true) :
    forward_command st = ⟨st, [Reply.respond "already_running"], 0⟩ := by
  simp [forward_command, hsrc, hdst, hrun]

/-- Witness for C9: a configured state with the flag already set only
gets the already-running reply. -/
theorem spec_C9_witness :
    forward_command ⟨⟨some 1, some 2, 2, 100, 120, true, 5, 9, false⟩, ⟨none, none, []⟩⟩ =
      ⟨⟨⟨some 1, some 2, 2, 100, 120, true, 5, 9, false⟩, ⟨none, none, []⟩⟩,
       [Reply.respond "already_running"], 0⟩ :=
  spec_C9_forward_single_start _ (by decide) (by decide) rfl

/-- After any keep-alive log operation the table holds at most 100 rows. -/
theorem log_keepalive_length_le (now : Nat) (tbl : List Nat) :
    (log_keepalive now tbl).length ≤ 100 := by
  simp only [log_keepalive]
  exact List.length_take_le _ _

/-- C10: the keep-alive log is bounded: after every `log_keepalive` the
table holds at most 100 rows — exactly `min 100 (n + 1)` of the rows
present after the insert, every kept row is one of those, and every
deleted row has a timestamp no later than every kept row (the kept rows
are the most recent); and over any sequence of calls from any starting
table the bound holds after the first call. -/
theorem spec_C10_keepalive_bounded (now : Nat) (tbl : List Nat) :
    ((log_keepalive now tbl).length ≤ 100) ∧
    ((log_keepalive now tbl).length = min 100 (tbl.length + 1)) ∧
    (∀ x ∈ log_keepalive now tbl, x ∈ now :: tbl) ∧
    (∀ x ∈ log_keepalive now tbl, ∀ y ∈ now :: tbl,
      y ∉ log_keepalive now tbl → y ≤ x) ∧
    (∀ pings : List Nat, pings ≠ [] →
      (pings.foldl (fun acc p => log_keepalive p acc) tbl).length ≤ 100) := by
  have hsorted : (sortDesc (now :: tbl)).Sorted (· ≥ ·) :=
    List.sorted_insertionSort _ _
  have hperm : List.Perm (sortDesc (now :: tbl)) (now :: tbl) :=
    List.perm_insertionSort _ _
  refine ⟨log_keepalive_length_le now tbl, ?_, ?_, ?_, ?_⟩
  · simp only [log_keepalive, List.length_take, hperm.length_eq, List.length_cons]
  · intro x hx
    simp only [log_keepalive] at hx
    exact hperm.mem_iff.mp (List.mem_of_mem_take hx)
  · intro x hx y hy hyn
    simp only [log_keepalive] at hx hyn
    have hyL : y ∈ sortDesc (now :: tbl) := hperm.mem_iff.mpr hy
    rw [← List.take_append_drop 100 (sortDesc (now :: tbl))] at hyL
    rcases List.mem_append.mp hyL with hyt | hyd
    · exact absurd hyt hyn
    · exact hsorted.rel_of_mem_take_of_mem_drop hx hyd
  · intro pings
    clear hsorted hperm
    induction pings generalizing tbl with
    | nil =>
      intro h
      exact absurd rfl h
    | cons p rest ih =>
      intro _
      cases rest with
      | nil => simpa using log_keepalive_length_le p tbl
      | cons q r =>
        simpa using ih (log_keepalive p tbl) (by simp)

/-- Witness for C10: concrete runs stay within the 100-row bound. -/
theorem spec_C10_witness :
    ((log_keepalive 5 [1, 2, 3]).length ≤ 100) ∧
    (([7].foldl (fun acc p => log_keepalive p acc) [1, 2, 3]).length ≤ 100) :=
  ⟨(spec_C10_keepalive_bounded 5 [1, 2, 3]).1,
   (spec_C10_keepalive_bounded 5 [1, 2, 3]).2.2.2.2 [7] (by decide)⟩

end Userbot
